import Mathlib

/-!
Verification of the AgentGuard policy evaluator, webhook security envelope and
HITL (human-in-the-loop) coordinator, as implemented in
`src/lib/agentguard.ts`, `src/lib/webhook-security.ts` and
`src/lib/hitl-manager.ts`.

The development shallowly embeds the TypeScript source: JSON-shaped runtime
values are an inductive `JSValue`, JavaScript numbers are modelled as rationals
(float rounding and NaN-propagation subtleties are outside the properties
treated here and are noted where relevant), fallible code returns `Except`,
and ambient effects (`Date.now()`, `randomBytes`, the HTTP transport) are
passed in explicitly as parameters.
-/

/-- JSON-shaped JavaScript runtime value, as carried in `ToolCall.parameters`,
condition values and webhook payloads.  `undefined` is the JavaScript `undefined`
(the result of a failed property lookup).  Numbers are modelled as rationals. -/
inductive JSValue : Type where
  | undefined : JSValue
  | null : JSValue
  | bool : Bool → JSValue
  | num : ℚ → JSValue
  | str : String → JSValue
  | arr : List JSValue → JSValue
  | obj : List (String × JSValue) → JSValue

/-- JavaScript strict equality `===` between an extracted field value and a
condition value.  Scalars compare by value; arrays and objects compare by
reference identity.  In the evaluator the extracted value and the literal of the condition are distinct heap objects (the former comes from the tool call, the
latter from the policy document), so `===` on two composite values is `false`;
the embedding fixes that object identity assumption.  (`NaN === NaN` is false
in JavaScript; `NaN` has no representative in the rational model.) -/
def jsStrictEq : JSValue → JSValue → Bool
  | .undefined, .undefined => true
  | .null, .null => true
  | .bool a, .bool b => a == b
  | .num a, .num b => a == b
  | .str a, .str b => a == b
  | _, _ => false

/-- Element test used by `Array.prototype.includes` (SameValueZero).  For the
values representable in this model it coincides with strict equality: the
SameValueZero/`===` difference is confined to `NaN`, which has no
representative here. -/
def jsSameValueZero (a b : JSValue) : Bool := jsStrictEq a b

/-- Decimal rendering of a JavaScript number, used only inside `jsToString`.
Modelled from the spec: the JavaScript Number-to-String conversion (a platform
primitive external to the repository).  Integral values render exactly as in
JavaScript; non-integral values are rendered as `num/den`, a simplification
no proved property depends on. -/
def jsNumToString (q : ℚ) : String :=
  if q.den = 1 then toString q.num else toString q.num ++ "/" ++ toString q.den

mutual

/-- JavaScript `String(value)` conversion.  Modelled from the spec: the
ECMAScript ToString platform primitive (external to the repository).  Arrays
join their elements with commas, plain objects render as "[object Object]". -/
def jsToString : JSValue → String
  | .undefined => "undefined"
  | .null => "null"
  | .bool b => if b then "true" else "false"
  | .num q => jsNumToString q
  | .str s => s
  | .arr xs => jsArrJoin xs
  | .obj _ => "[object Object]"

/-- Comma-join of array elements as done by `Array.prototype.toString`
(`join(",")`); `null` and `undefined` elements render as the empty string. -/
def jsArrJoin : List JSValue → String
  | [] => ""
  | [x] => jsJoinElem x
  | x :: xs => jsJoinElem x ++ "," ++ jsArrJoin xs

/-- Rendering of a single element inside `Array.prototype.join`. -/
def jsJoinElem : JSValue → String
  | .undefined => ""
  | .null => ""
  | x => jsToString x

end

mutual

/-- Deep structural equality on JSON-shaped values.  Modelled from the spec:
"`equals`: deep-equal for scalars, structural equal for arrays/mappings".
This is the comparison the specification ascribes to the `equals` operator;
it is compared against the `===`-based comparison of the source. -/
def specDeepEqual : JSValue → JSValue → Bool
  | .undefined, .undefined => true
  | .null, .null => true
  | .bool a, .bool b => a == b
  | .num a, .num b => a == b
  | .str a, .str b => a == b
  | .arr xs, .arr ys => specDeepEqualList xs ys
  | .obj fs, .obj gs => specDeepEqualFields fs gs
  | _, _ => false

/-- Pointwise deep equality of array elements. -/
def specDeepEqualList : List JSValue → List JSValue → Bool
  | [], [] => true
  | x :: xs, y :: ys => specDeepEqual x y && specDeepEqualList xs ys
  | _, _ => false

/-- Pointwise deep equality of object fields (keys in declaration order). -/
def specDeepEqualFields : List (String × JSValue) → List (String × JSValue) → Bool
  | [], [] => true
  | (k, v) :: fs, (k2, v2) :: gs =>
      k == k2 && specDeepEqual v v2 && specDeepEqualFields fs gs
  | _, _ => false

end

/-- Leading-prefix decimal parse used to model the JavaScript `parseFloat`.
Modelled from the spec: a platform primitive external to the repository.
`none` plays the role of `NaN`.  Exponent notation is omitted; no proved
property depends on it. -/
def digitsToNat (ds : List Char) : Nat :=
  ds.foldl (fun a c => a * 10 + (c.toNat - 48)) 0

/-- Model of JavaScript `parseFloat`: skip leading whitespace, optional sign,
then a decimal number prefix; `none` when no digit is found (`NaN`). -/
def jsParseFloat (s : String) : Option ℚ :=
  let cs := s.toList.dropWhile (fun c => c = ' ' || c = '\t' || c = '\n' || c = '\r')
  let signed : Bool × List Char :=
    match cs with
    | '-' :: rest => (true, rest)
    | '+' :: rest => (false, rest)
    | _ => (false, cs)
  let intPart := signed.2.takeWhile Char.isDigit
  let rest := signed.2.dropWhile Char.isDigit
  let fracPart : List Char :=
    match rest with
    | '.' :: r2 => r2.takeWhile Char.isDigit
    | _ => []
  if intPart.isEmpty && fracPart.isEmpty then none
  else
    let v : ℚ :=
      (digitsToNat intPart : ℚ) + (digitsToNat fracPart : ℚ) / ((10 : ℚ) ^ fracPart.length)
    some (if signed.1 then -v else v)

/-- Model of JavaScript `parseInt(s, 10)`: skip leading whitespace, optional
sign, then a decimal-digit prefix; `none` when no digit is found (`NaN`). -/
def jsParseInt (s : String) : Option Int :=
  let cs := s.toList.dropWhile (fun c => c = ' ' || c = '\t' || c = '\n' || c = '\r')
  let signed : Bool × List Char :=
    match cs with
    | '-' :: rest => (true, rest)
    | '+' :: rest => (false, rest)
    | _ => (false, cs)
  let intPart := signed.2.takeWhile Char.isDigit
  if intPart.isEmpty then none
  else some (if signed.1 then -(digitsToNat intPart : Int) else (digitsToNat intPart : Int))

/-- Substring containment on character lists, used to model
`String.prototype.includes`. -/
def listContainsSub (sub : List Char) : List Char → Bool
  | [] => sub.isEmpty
  | c :: rest => sub.isPrefixOf (c :: rest) || listContainsSub sub rest

/-- Model of `String.prototype.includes` (substring containment). -/
def strIncludes (s sub : String) : Bool := listContainsSub sub.toList s.toList

/-- Group-parenthesis balance check.  Modelled from the spec: the ECMAScript
`RegExp` constructor (a platform primitive external to the repository) raises
a `SyntaxError` on syntactically invalid patterns; the model checks the
group-parenthesis balance, which covers the invalid patterns exercised here
(e.g. an unmatched "(").  Escapes and character classes are not modelled. -/
def jsRegexSyntaxOk (pattern : String) : Bool :=
  let step : Option Nat → Char → Option Nat := fun depth c =>
    match depth, c with
    | none, _ => none
    | some d, '(' => some (d + 1)
    | some d, ')' => if d = 0 then none else some (d - 1)
    | some d, _ => some d
  match pattern.toList.foldl step (some 0) with
  | some 0 => true
  | _ => false

/-- Compiled-regex handle of the platform model. -/
structure JsRegex where
  pattern : String

/-- Model of `new RegExp(pattern)`: fails (throws `SyntaxError`) on invalid
patterns, returns a handle otherwise. -/
def jsRegexCompile (p : String) : Option JsRegex :=
  if jsRegexSyntaxOk p then some ⟨p⟩ else none

/-- Model of `RegExp.prototype.test`: true iff the pattern matches somewhere
in the string.  The model implements containment of the literal pattern text,
which is sufficient here because no proved property depends on regular
expression match semantics. -/
def jsRegexTest (re : JsRegex) (s : String) : Bool := strIncludes s re.pattern

/-- Policy decision, `src/types.ts` (`PolicyDecision`). -/
inductive PolicyDecision : Type where
  | ALLOW : PolicyDecision
  | BLOCK : PolicyDecision
  | REQUIRE_HUMAN_APPROVAL : PolicyDecision
deriving DecidableEq, Repr

/-- Policy condition, `src/types.ts` (`PolicyCondition`).  The operator is
kept as a raw string because the `switch` of the evaluator carries a default
branch for unknown operators. -/
structure PolicyCondition : Type where
  field : String
  operator : String
  value : JSValue

/-- Policy rule, `src/types.ts` (`PolicyRule`).  `priority` is optional; the
evaluator substitutes 0 (`rule.priority || 0`). -/
structure PolicyRule : Type where
  name : String
  description : Option String := none
  conditions : List PolicyCondition
  action : PolicyDecision
  priority : Option ℚ := none

/-- Webhook security configuration, `src/types.ts` (`WebhookSecurityConfig`). -/
structure WebhookSecurityConfig : Type where
  signingSecret : String
  encryptionKey : Option String := none
  encryptSensitiveData : Option Bool := none
  sensitiveFields : Option (List String) := none

/-- Webhook configuration, `src/types.ts` (`WebhookConfig`). -/
structure WebhookConfig : Type where
  url : String
  timeout : Option Int := none
  retries : Option Int := none
  headers : Option (List (String × String)) := none
  security : Option WebhookSecurityConfig := none

/-- Policy, `src/types.ts` (`Policy`). -/
structure Policy : Type where
  version : String
  name : String
  description : Option String := none
  defaultAction : PolicyDecision
  rules : List PolicyRule
  webhook : Option WebhookConfig := none

/-- Tool call, `src/types.ts` (`ToolCall`).  `parameters` is kept as a raw
`JSValue` because `extractParameters` may install any single object argument
(including an array) as the parameters map. -/
structure ToolCall : Type where
  toolName : String
  parameters : JSValue
  agentId : Option String := none
  sessionId : Option String := none
  metadata : Option (List (String × JSValue)) := none

/-- Guard result, `src/types.ts` (`GuardResult`), minus the
`approvalRequestId` (allocated by the HITL manager, modelled separately). -/
structure GuardResult : Type where
  decision : PolicyDecision
  rule : Option PolicyRule := none
  reason : String

/-- String form of a decision as it appears in the JS object layout. -/
def policyDecisionStr : PolicyDecision → String
  | .ALLOW => "ALLOW"
  | .BLOCK => "BLOCK"
  | .REQUIRE_HUMAN_APPROVAL => "REQUIRE_HUMAN_APPROVAL"

/-- Optional field of a JS object literal: absent when the value is `none`. -/
def optJsField (k : String) : Option JSValue → List (String × JSValue)
  | some v => [(k, v)]
  | none => []

/-- JS object layout of a `ToolCall`. -/
def toolCallToJs (tc : ToolCall) : JSValue :=
  .obj ([("toolName", .str tc.toolName), ("parameters", tc.parameters)]
    ++ optJsField "agentId" (tc.agentId.map .str)
    ++ optJsField "sessionId" (tc.sessionId.map .str)
    ++ optJsField "metadata" (tc.metadata.map .obj))

/-- JS object layout of a `PolicyCondition`. -/
def conditionToJs (c : PolicyCondition) : JSValue :=
  .obj [("field", .str c.field), ("operator", .str c.operator), ("value", c.value)]

/-- JS object layout of a `PolicyRule`. -/
def ruleToJs (r : PolicyRule) : JSValue :=
  .obj ([("name", .str r.name)]
    ++ optJsField "description" (r.description.map .str)
    ++ [("conditions", .arr (r.conditions.map conditionToJs)),
        ("action", .str (policyDecisionStr r.action))]
    ++ optJsField "priority" (r.priority.map .num))

/-- JS object layout of a `WebhookSecurityConfig`. -/
def webhookSecurityConfigToJs (c : WebhookSecurityConfig) : JSValue :=
  .obj ([("signingSecret", .str c.signingSecret)]
    ++ optJsField "encryptionKey" (c.encryptionKey.map .str)
    ++ optJsField "encryptSensitiveData" (c.encryptSensitiveData.map .bool)
    ++ optJsField "sensitiveFields" (c.sensitiveFields.map (fun fs => .arr (fs.map .str))))

/-- JS object layout of a `WebhookConfig`. -/
def webhookConfigToJs (c : WebhookConfig) : JSValue :=
  .obj ([("url", .str c.url)]
    ++ optJsField "timeout" (c.timeout.map (fun t => .num (t : ℚ)))
    ++ optJsField "retries" (c.retries.map (fun t => .num (t : ℚ)))
    ++ optJsField "headers" (c.headers.map (fun hs => .obj (hs.map (fun p => (p.1, .str p.2)))))
    ++ optJsField "security" (c.security.map webhookSecurityConfigToJs))

/-- JS object layout of a `Policy`. -/
def policyToJs (p : Policy) : JSValue :=
  .obj ([("version", .str p.version), ("name", .str p.name)]
    ++ optJsField "description" (p.description.map .str)
    ++ [("defaultAction", .str (policyDecisionStr p.defaultAction)),
        ("rules", .arr (p.rules.map ruleToJs))]
    ++ optJsField "webhook" (p.webhook.map webhookConfigToJs))

/-- JS object layout of the `PolicyEvaluationContext` built in
`evaluateToolCall`: `{ toolCall, policy, timestamp }`. -/
def evaluationContextToJs (p : Policy) (tc : ToolCall) (timestamp : String) : JSValue :=
  .obj [("toolCall", toolCallToJs tc), ("policy", policyToJs p), ("timestamp", .str timestamp)]

/-- Canonical array-index reading of a property key: `some i` iff the key is
the canonical decimal rendering of `i` (JS array elements live at keys
"0", "1", …; "01" is not an element key). -/
def canonIndexNat (s : String) : Option Nat :=
  match s.toList with
  | [] => none
  | c :: cs =>
      if (c :: cs).all Char.isDigit && (c ≠ '0' || cs.isEmpty) then
        some (digitsToNat (c :: cs))
      else none

/-- Model of `String.prototype.startsWith`. -/
def strStartsWith (s p : String) : Bool := p.toList.isPrefixOf s.toList

/-- Model of `String.prototype.endsWith`. -/
def strEndsWith (s p : String) : Bool := p.toList.isSuffixOf s.toList

/-- Split of a character list on `'.'`, modelling `field.split('.')`
(`"".split('.')` is `[""]`, empty segments are kept). -/
def splitOnDotChars : List Char → List (List Char)
  | [] => [[]]
  | c :: rest =>
      let r := splitOnDotChars rest
      if c = '.' then [] :: r
      else
        match r with
        | g :: gs => (c :: g) :: gs
        | [] => [[c]]

/-- Model of JavaScript `String.prototype.split('.')`. -/
def splitOnDot (s : String) : List String :=
  (splitOnDotChars s.toList).map (fun cs => String.mk cs)

/-- Single step of the dotted-path walk: JS `part in value` followed by
`value[part]`, defined on values passing the `value && typeof value ===
"object"` test (objects and arrays; `null` is falsy).  Prototype-chain
properties are not modelled. -/
def jsPropLookup : JSValue → String → Option JSValue
  | .obj fs, k => (fs.find? (fun p => p.1 == k)).map Prod.snd
  | .arr xs, k =>
      if k == "length" then some (.num (xs.length : ℚ))
      else
        match canonIndexNat k with
        | some i => xs[i]?
        | none => none
  | _, _ => none

/-- Path walk of `extractFieldValue` (`agentguard.ts`): any failing segment
yields `undefined`. -/
def extractFieldPath : List String → JSValue → JSValue
  | [], v => v
  | part :: rest, v =>
      match jsPropLookup v part with
      | some v2 => extractFieldPath rest v2
      | none => .undefined

/-- Embedding of `AgentGuard.extractFieldValue`: split the field on `.` and
walk the context object. -/
def extractFieldValue (field : String) (ctx : JSValue) : JSValue :=
  extractFieldPath (splitOnDot field) ctx

/-- Evaluation error: the only uncaught exception site in the evaluator is
the `new RegExp(condition.value)` call on an invalid pattern. -/
inductive EvalError : Type where
  | regexSyntaxError : String → EvalError
deriving DecidableEq, Repr

/-- Embedding of `AgentGuard.evaluateNumericCondition`: coerce both sides to
a number (`parseFloat(String(v))` for non-numbers), false if either is NaN. -/
def evaluateNumericCondition (operator : String) (value conditionValue : JSValue) : Bool :=
  let numValue : Option ℚ :=
    match value with
    | .num q => some q
    | v => jsParseFloat (jsToString v)
  let numConditionValue : Option ℚ :=
    match conditionValue with
    | .num q => some q
    | v => jsParseFloat (jsToString v)
  match numValue, numConditionValue with
  | some a, some b =>
      match operator with
      | "gt" => decide (a > b)
      | "lt" => decide (a < b)
      | "gte" => decide (a ≥ b)
      | "lte" => decide (a ≤ b)
      | _ => false
  | _, _ => false

/-- Embedding of `AgentGuard.evaluateCondition`.  `.error` marks the one
statement that can throw (`new RegExp` on an invalid pattern); every other
branch, including the default branch for unknown operators, returns a
boolean. -/
def evaluateCondition (condition : PolicyCondition) (ctx : JSValue) : Except EvalError Bool :=
  let value := extractFieldValue condition.field ctx
  match condition.operator with
  | "equals" => .ok (jsStrictEq value condition.value)
  | "contains" =>
      .ok (match value, condition.value with
        | .str a, .str b => strIncludes a b
        | _, _ => false)
  | "startsWith" =>
      .ok (match value, condition.value with
        | .str a, .str b => strStartsWith a b
        | _, _ => false)
  | "endsWith" =>
      .ok (match value, condition.value with
        | .str a, .str b => strEndsWith a b
        | _, _ => false)
  | "regex" =>
      match value, condition.value with
      | .str a, .str b =>
          match jsRegexCompile b with
          | some re => .ok (jsRegexTest re a)
          | none => .error (.regexSyntaxError b)
      | _, _ => .ok false
  | "in" =>
      .ok (match condition.value with
        | .arr xs => xs.any (fun x => jsSameValueZero x value)
        | _ => false)
  | "gt" => .ok (evaluateNumericCondition condition.operator value condition.value)
  | "lt" => .ok (evaluateNumericCondition condition.operator value condition.value)
  | "gte" => .ok (evaluateNumericCondition condition.operator value condition.value)
  | "lte" => .ok (evaluateNumericCondition condition.operator value condition.value)
  | _ => .ok false

/-- Conjunction over the conditions of a rule, stopping at the first false or the
first thrown error, as the `for` loop in `evaluateRule` does. -/
def evaluateConditionsAll : List PolicyCondition → JSValue → Except EvalError Bool
  | [], _ => .ok true
  | c :: cs, ctx =>
      match evaluateCondition c ctx with
      | .error e => .error e
      | .ok false => .ok false
      | .ok true => evaluateConditionsAll cs ctx

/-- Embedding of `AgentGuard.evaluateRule`: all conditions must match. -/
def evaluateRule (rule : PolicyRule) (ctx : JSValue) : Except EvalError Bool :=
  evaluateConditionsAll rule.conditions ctx

/-- Effective sort key: `rule.priority || 0`. -/
def rulePriority (r : PolicyRule) : ℚ := r.priority.getD 0

/-- Stable descending insertion: a rule is placed before the first rule of
priority ≤ its own. -/
def orderedInsertRule (r : PolicyRule) : List PolicyRule → List PolicyRule
  | [] => [r]
  | y :: ys =>
      if rulePriority y ≤ rulePriority r then r :: y :: ys else y :: orderedInsertRule r ys

/-- Embedding of `[...policy.rules].sort((a, b) => (b.priority || 0) -
(a.priority || 0))`.  ECMAScript `Array.prototype.sort` is stable, and a
stable sort by a total preorder has a unique result, so stable insertion
sort is an equivalent embedding. -/
def sortRulesByPriority : List PolicyRule → List PolicyRule
  | [] => []
  | r :: rs => orderedInsertRule r (sortRulesByPriority rs)

/-- First rule of the list whose conditions all match, propagating a thrown
evaluation error, as the rule loop of `evaluateToolCall` does. -/
def firstMatchingRule (ctx : JSValue) : List PolicyRule → Except EvalError (Option PolicyRule)
  | [] => .ok none
  | r :: rs =>
      match evaluateRule r ctx with
      | .error e => .error e
      | .ok true => .ok (some r)
      | .ok false => firstMatchingRule ctx rs

/-- Embedding of `AgentGuard.evaluateToolCall` (decision, matched rule and
reason; the `approvalRequestId` side effect lives in the HITL model). -/
def evaluateToolCall (policy : Policy) (toolCall : ToolCall) (timestamp : String) :
    Except EvalError GuardResult :=
  let ctx := evaluationContextToJs policy toolCall timestamp
  match firstMatchingRule ctx (sortRulesByPriority policy.rules) with
  | .error e => .error e
  | .ok (some r) =>
      .ok { decision := r.action, rule := some r, reason := "Matched rule: " ++ r.name }
  | .ok none =>
      .ok { decision := policy.defaultAction, rule := none,
            reason := "No matching rules found, using default action" }

/-- Boolean matching test of a rule: all conditions evaluate to true without
throwing.  (A rule that throws does not count as matching.) -/
def ruleMatches (ctx : JSValue) (r : PolicyRule) : Bool :=
  match evaluateRule r ctx with
  | .ok true => true
  | _ => false

/-- Spec-side selection, written from the claim: among the rules whose every
condition matches (kept in declaration order by `filter`), the first one
whose priority is maximal — that is, the highest-priority matching rule with
priority ties resolved in declaration order. -/
def specBestRule (ctx : JSValue) (rules : List PolicyRule) : Option PolicyRule :=
  let matching := rules.filter (ruleMatches ctx)
  matching.find? (fun r => matching.all (fun y => rulePriority y ≤ rulePriority r))

/-- Fold form of the best-matching-rule selection, used as a stepping stone
between the sorted-scan of the source and `specBestRule`. -/
def specFoldBest (q : PolicyRule → Bool) : List PolicyRule → Option PolicyRule
  | [] => none
  | r :: rs =>
      match specFoldBest q rs with
      | none => if q r then some r else none
      | some b =>
          if q r = true ∧ rulePriority b ≤ rulePriority r then some r else some b

/-- Concrete fixture: low-priority blanket block rule ("priority override"
scenario of the specification). -/
def ruleLoB : PolicyRule :=
  { name := "lo", conditions := [⟨"toolCall.toolName", "equals", .str "test"⟩],
    action := .BLOCK, priority := some 10 }

/-- Concrete fixture: high-priority allow rule conditioned on a parameter. -/
def ruleHiB : PolicyRule :=
  { name := "hi", conditions := [⟨"toolCall.parameters.safe", "equals", .bool true⟩],
    action := .ALLOW, priority := some 100 }

/-- Concrete fixture policy: both rules above, default allow. -/
def policyB : Policy :=
  { version := "1.0", name := "priority-override", defaultAction := .ALLOW,
    rules := [ruleLoB, ruleHiB] }

/-- Concrete fixture tool call matching both rules. -/
def toolCallB : ToolCall :=
  { toolName := "test", parameters := .obj [("safe", .bool true)] }

/-- Expected guard result for the fixture: the priority-100 rule wins. -/
def guardResultB : GuardResult :=
  { decision := .ALLOW, rule := some ruleHiB, reason := "Matched rule: hi" }

/-- Decimal digits of a natural number, fueled structural recursion (the fuel
`n + 1` always suffices). -/
def natToDecimalAux : Nat → Nat → List Char
  | 0, _ => []
  | fuel + 1, n =>
      if n = 0 then [] else natToDecimalAux fuel (n / 10) ++ [Char.ofNat (48 + n % 10)]

/-- Canonical decimal rendering of a natural number. -/
def natToDecimalString (n : Nat) : String :=
  if n = 0 then "0" else String.mk (natToDecimalAux (n + 1) n)

/-- Canonical decimal rendering of an integer, as JavaScript renders integral
numbers in template literals. -/
def intToDecimalString (i : Int) : String :=
  if i < 0 then "-" ++ natToDecimalString i.natAbs else natToDecimalString i.toNat

/-- UTF-8 bytes of one character (1 to 4 bytes). -/
def charUtf8 (c : Char) : List Nat :=
  let n := c.toNat
  if n < 128 then [n]
  else if n < 2048 then [192 + n / 64, 128 + n % 64]
  else if n < 65536 then [224 + n / 4096, 128 + n / 64 % 64, 128 + n % 64]
  else [240 + n / 262144, 128 + n / 4096 % 64, 128 + n / 64 % 64, 128 + n % 64]

/-- UTF-8 encoding of a string, as the Node HMAC update applies to string
input. -/
def utf8Bytes (s : String) : List Nat := s.toList.flatMap charUtf8

/-- Truncation to 32 bits. -/
def w32 (n : Nat) : Nat := n % 4294967296

/-- 32-bit right rotation (input assumed < 2^32). -/
def rotr32 (x n : Nat) : Nat := w32 ((x >>> n) ||| (x <<< (32 - n)))

/-- SHA-256 round constants (FIPS 180-4). -/
def sha256K : List Nat :=
  [1116352408, 1899447441, 3049323471, 3921009573, 961987163, 1508970993,
   2453635748, 2870763221, 3624381080, 310598401, 607225278, 1426881987,
   1925078388, 2162078206, 2614888103, 3248222580, 3835390401, 4022224774,
   264347078, 604807628, 770255983, 1249150122, 1555081692, 1996064986,
   2554220882, 2821834349, 2952996808, 3210313671, 3336571891, 3584528711,
   113926993, 338241895, 666307205, 773529912, 1294757372, 1396182291,
   1695183700, 1986661051, 2177026350, 2456956037, 2730485921, 2820302411,
   3259730800, 3345764771, 3516065817, 3600352804, 4094571909, 275423344,
   430227734, 506948616, 659060556, 883997877, 958139571, 1322822218,
   1537002063, 1747873779, 1955562222, 2024104815, 2227730452, 2361852424,
   2428436474, 2756734187, 3204031479, 3329325298]

/-- SHA-256 working state (eight 32-bit words). -/
structure Sha256State : Type where
  a : Nat
  b : Nat
  c : Nat
  d : Nat
  e : Nat
  f : Nat
  g : Nat
  hh : Nat

/-- SHA-256 initial hash value (FIPS 180-4). -/
def sha256InitState : Sha256State :=
  ⟨1779033703, 3144134277, 1013904242, 2773480762,
   1359893119, 2600822924, 528734635, 1541459225⟩

/-- Big-endian 8-byte rendering of a length in bits. -/
def beBytes8 (n : Nat) : List Nat :=
  [56, 48, 40, 32, 24, 16, 8, 0].map (fun s => (n >>> s) % 256)

/-- SHA-256 message padding: `128`, zeros to 56 mod 64, 8-byte bit length. -/
def sha256Pad (msg : List Nat) : List Nat :=
  msg ++ [128] ++ List.replicate ((119 - msg.length % 64) % 64) 0 ++ beBytes8 (msg.length * 8)

/-- Fueled split into blocks of `64` bytes. -/
def chunks64Aux : Nat → List Nat → List (List Nat)
  | 0, _ => []
  | _, [] => []
  | fuel + 1, l => l.take 64 :: chunks64Aux fuel (l.drop 64)

/-- Fueled split into groups of 4 bytes. -/
def chunks4Aux : Nat → List Nat → List (List Nat)
  | 0, _ => []
  | _, [] => []
  | fuel + 1, l => l.take 4 :: chunks4Aux fuel (l.drop 4)

/-- Big-endian 32-bit word from up to four bytes. -/
def beWord (bs : List Nat) : Nat := bs.foldl (fun a c => a * 256 + c) 0

/-- Message-schedule sigma functions. -/
def smallSigma0 (x : Nat) : Nat := rotr32 x 7 ^^^ rotr32 x 18 ^^^ (x >>> 3)

/-- Second message-schedule sigma function. -/
def smallSigma1 (x : Nat) : Nat := rotr32 x 17 ^^^ rotr32 x 19 ^^^ (x >>> 10)

/-- Compression sigma functions. -/
def bigSigma0 (x : Nat) : Nat := rotr32 x 2 ^^^ rotr32 x 13 ^^^ rotr32 x 22

/-- Second compression sigma function. -/
def bigSigma1 (x : Nat) : Nat := rotr32 x 6 ^^^ rotr32 x 11 ^^^ rotr32 x 25

/-- Choice function (`ch`); the complement of a 32-bit value is
`4294967295 - x`. -/
def chFun (x y z : Nat) : Nat := (x &&& y) ^^^ ((4294967295 - x) &&& z)

/-- Majority function (`maj`). -/
def majFun (x y z : Nat) : Nat := (x &&& y) ^^^ (x &&& z) ^^^ (y &&& z)

/-- Message-schedule extension: append the next word `k` times. -/
def scheduleAux : Nat → List Nat → List Nat
  | 0, ws => ws
  | k + 1, ws =>
      let n := ws.length
      let w := w32 (smallSigma1 (ws.getD (n - 2) 0) + ws.getD (n - 7) 0
          + smallSigma0 (ws.getD (n - 15) 0) + ws.getD (n - 16) 0)
      scheduleAux k (ws ++ [w])

/-- One SHA-256 round, consuming a (round constant, schedule word) pair. -/
def sha256Round (st : Sha256State) (kw : Nat × Nat) : Sha256State :=
  let t1 := w32 (st.hh + bigSigma1 st.e + chFun st.e st.f st.g + kw.1 + kw.2)
  let t2 := w32 (bigSigma0 st.a + majFun st.a st.b st.c)
  ⟨w32 (t1 + t2), st.a, st.b, st.c, w32 (st.d + t1), st.e, st.f, st.g⟩

/-- Process one 64-byte block. -/
def sha256Block (hs : Sha256State) (chunk : List Nat) : Sha256State :=
  let ws := scheduleAux 48 ((chunks4Aux chunk.length chunk).map beWord)
  let st := (sha256K.zip ws).foldl sha256Round hs
  ⟨w32 (hs.a + st.a), w32 (hs.b + st.b), w32 (hs.c + st.c), w32 (hs.d + st.d),
   w32 (hs.e + st.e), w32 (hs.f + st.f), w32 (hs.g + st.g), w32 (hs.hh + st.hh)⟩

/-- Big-endian 4-byte rendering of a 32-bit word. -/
def wordBytesBE (w : Nat) : List Nat :=
  [(w >>> 24) % 256, (w >>> 16) % 256, (w >>> 8) % 256, w % 256]

/-- SHA-256 of a byte list (FIPS 180-4), 32-byte digest. -/
def sha256Bytes (msg : List Nat) : List Nat :=
  let padded := sha256Pad msg
  let fin := (chunks64Aux padded.length padded).foldl sha256Block sha256InitState
  [fin.a, fin.b, fin.c, fin.d, fin.e, fin.f, fin.g, fin.hh].flatMap wordBytesBE

/-- Lower-case hex digit. -/
def hexDigit (n : Nat) : Char := if n < 10 then Char.ofNat (48 + n) else Char.ofNat (87 + n)

/-- Lower-case hex encoding of a byte list. -/
def bytesToHex (bs : List Nat) : String :=
  String.mk (bs.flatMap (fun b => [hexDigit (b / 16), hexDigit (b % 16)]))

/-- HMAC-SHA-256 (RFC 2104) over byte lists, 64-byte block size. -/
def hmacSha256 (key msg : List Nat) : List Nat :=
  let k0 := if key.length > 64 then sha256Bytes key else key
  let kPad := k0 ++ List.replicate (64 - k0.length) 0
  let ipad := kPad.map (fun b => b ^^^ 54)
  let opad := kPad.map (fun b => b ^^^ 92)
  sha256Bytes (opad ++ sha256Bytes (ipad ++ msg))

/-- Hex-encoded HMAC-SHA-256 keyed by a secret string over a message string,
as `createHmac("sha256", secret).update(message).digest("hex")` computes. -/
def hmacSha256Hex (secret message : String) : String :=
  bytesToHex (hmacSha256 (utf8Bytes secret) (utf8Bytes message))

/-- JavaScript argument value as passed at the call sites of this repository of the
security functions: a string or an integral number.  TypeScript annotations
are erased at runtime, so a call with shifted positions binds whatever value
arrives. -/
inductive JsArg : Type where
  | str : String → JsArg
  | int : Int → JsArg
deriving DecidableEq

/-- Template-literal rendering (`${x}`) of an argument. -/
def jsArgToString : JsArg → String
  | .str s => s
  | .int i => intToDecimalString i

/-- Strict full-string numeric coercion, modelling ECMAScript `ToNumber` on
strings (a platform primitive): surrounding whitespace is ignored, the empty
string is 0, anything not wholly numeric is `NaN` (`none`).  Exponent forms
are omitted; no proved property depends on them. -/
def jsToNumberFull (s : String) : Option ℚ :=
  let ws : Char → Bool := fun c => c = ' ' || c = '\t' || c = '\n' || c = '\r'
  let cs := (((s.toList.dropWhile ws).reverse.dropWhile ws).reverse)
  if cs.isEmpty then some 0
  else
    let signed : Bool × List Char :=
      match cs with
      | '-' :: rest => (true, rest)
      | '+' :: rest => (false, rest)
      | _ => (false, cs)
    let intPart := signed.2.takeWhile Char.isDigit
    let rest := signed.2.dropWhile Char.isDigit
    let parsed : Option (List Char) :=
      match rest with
      | [] => some []
      | '.' :: r2 => if r2.dropWhile Char.isDigit = [] then some (r2.takeWhile Char.isDigit) else none
      | _ => none
    match parsed with
    | none => none
    | some fracPart =>
        if intPart.isEmpty && fracPart.isEmpty then none
        else
          let v : ℚ := (digitsToNat intPart : ℚ)
              + (digitsToNat fracPart : ℚ) / ((10 : ℚ) ^ fracPart.length)
          some (if signed.1 then -v else v)

/-- `ToNumber` of an argument (`none` is `NaN`). -/
def jsArgToNumber : JsArg → Option ℚ
  | .int i => some (i : ℚ)
  | .str s => jsToNumberFull s

/-- The message signed by `WebhookSecurity.signPayload`
(`webhook-security.ts` line 21): `` `${timestamp}.${nonce}.${payload}` ``.
Note the message has three components; no request id is incorporated. -/
def signMessage (timestamp nonce : JsArg) (payload : String) : String :=
  jsArgToString timestamp ++ "." ++ jsArgToString nonce ++ "." ++ payload

/-- Embedding of `WebhookSecurity.signPayload` (`webhook-security.ts` lines
20-23): hex HMAC-SHA-256 of the three-part message keyed by the signing
secret.  The declared parameters are `(payload, timestamp, nonce)`. -/
def signPayload (signingSecret payload : String) (timestamp nonce : JsArg) : String :=
  hmacSha256Hex signingSecret (signMessage timestamp nonce payload)

/-- Embedding of `WebhookSecurity.secureCompare` (`webhook-security.ts` lines
144-154): length check, then an accumulated-xor comparison over char codes. -/
def secureCompare (a b : String) : Bool :=
  if a.length ≠ b.length then false
  else ((a.toList.zip b.toList).foldl (fun acc p => acc ||| (p.1.toNat ^^^ p.2.toNat)) 0) == 0

/-- Embedding of `WebhookSecurity.verifySignature` (`webhook-security.ts`
lines 28-39): reject when `|now − timestamp| > 5 min`, then recompute the
signature and compare in constant time.  When the timestamp value is not
numeric the JS comparison is against `NaN` and is false, so the freshness
check never rejects and control falls through to the comparison. -/
def verifySignature (signingSecret : String) (nowMs : Int) (payload signature : String)
    (timestamp nonce : JsArg) : Bool :=
  match jsArgToNumber timestamp with
  | some t =>
      if |(nowMs : ℚ) - t| > 5 * 60 * 1000 then false
      else secureCompare signature (signPayload signingSecret payload timestamp nonce)
  | none => secureCompare signature (signPayload signingSecret payload timestamp nonce)

/-- The four-argument call `signPayload(payload, requestId, timestampMs,
nonce)` made by the unit tests of this repository against the two-argument-payload
declaration: JavaScript binds positionally, so `requestId` lands in the
`timestamp` parameter, `timestampMs` in the `nonce` parameter, and the
`nonce` argument is dropped. -/
def signPayloadCall4 (signingSecret payload requestId : String) (timestampMs : Int)
    (_nonce : String) : String :=
  signPayload signingSecret payload (.str requestId) (.int timestampMs)

/-- The five-argument call `verifySignature(payload, signature, requestId,
timestampMs, nonce)` made by the unit tests of this repository: `requestId` lands
in the `timestamp` parameter, `timestampMs` in the `nonce` parameter, and
the `nonce` argument is dropped. -/
def verifySignatureCall5 (signingSecret : String) (nowMs : Int)
    (payload signature requestId : String) (timestampMs : Int) (_nonce : String) : Bool :=
  verifySignature signingSecret nowMs payload signature (.str requestId) (.int timestampMs)

/-- Modelled from the spec: "`sign(payload, requestId, timestampMs, nonce)`
returns HMAC-SHA-256 of `timestampMs || "." || nonce || "." || requestId ||
"." || payload` keyed by `signingSecret`" — the four-part message the
specification prescribes, for comparison with `signMessage`. -/
def specSignMessage (timestampMs : Int) (nonce requestId payload : String) : String :=
  intToDecimalString timestampMs ++ "." ++ nonce ++ "." ++ requestId ++ "." ++ payload

/-- Case-sensitive lookup of a header, `none` when absent (`undefined`). -/
def headerLookup (headers : List (String × String)) (k : String) : Option String :=
  (headers.find? (fun p => p.1 == k)).map Prod.snd

/-- JS truthiness of a possibly-absent header string: `undefined` and the
empty string are falsy. -/
def headerTruthy : Option String → Bool
  | none => false
  | some s => !s.isEmpty

/-- Embedding of `WebhookSecurity.generateHeaders` (`webhook-security.ts`
lines 93-105): `Date.now()` and the random nonce are passed in explicitly.
The emitted security set is signature, timestamp and nonce; no request-id
header is produced (the second argument of the call site is dropped). -/
def generateHeaders (signingSecret payload : String) (nowMs : Int) (nonce : String) :
    List (String × String) :=
  [("x-agentguard-signature", signPayload signingSecret payload (.int nowMs) (.str nonce)),
   ("x-agentguard-timestamp", intToDecimalString nowMs),
   ("x-agentguard-nonce", nonce),
   ("Content-Type", "application/json"),
   ("User-Agent", "AgentGuard/1.0")]

/-- Result record of `validateResponse`. -/
structure ValidationResult : Type where
  valid : Bool
  reason : Option String := none
deriving DecidableEq, Repr

/-- Embedding of `WebhookSecurity.validateResponse` (`webhook-security.ts`
lines 110-139): require truthy signature, timestamp and nonce headers, parse
the timestamp as an integer, then verify the signature.  The declaration has
two parameters; the expected-request-id argument passed by the HITL manager
is dropped by JavaScript and no request-id check occurs here. -/
def validateResponse (signingSecret : String) (nowMs : Int) (body : String)
    (headers : List (String × String)) : ValidationResult :=
  let signature := headerLookup headers "x-agentguard-signature"
  let timestamp := headerLookup headers "x-agentguard-timestamp"
  let nonce := headerLookup headers "x-agentguard-nonce"
  if !(headerTruthy signature && headerTruthy timestamp && headerTruthy nonce) then
    { valid := false, reason := some "Missing required security headers" }
  else
    match jsParseInt (timestamp.getD "") with
    | none => { valid := false, reason := some "Invalid timestamp format" }
    | some timestampNum =>
        let isValid := verifySignature signingSecret nowMs body (signature.getD "")
          (.int timestampNum) (.str (nonce.getD ""))
        { valid := isValid, reason := if isValid then none else some "Invalid signature" }

/-- Default headers of every outgoing webhook request
(`hitl-manager.ts` `sendWebhook`). -/
def defaultWebhookHeaders : List (String × String) :=
  [("Content-Type", "application/json"), ("User-Agent", "AgentGuard/1.0")]

/-- Effective value of one header of the outgoing request, embedding the
object spread `{...defaultHeaders, ...securityHeaders, ...config.headers}`
of `sendWebhook`: in a spread the later source wins, so a caller-supplied
extra header overrides the security headers, which override the defaults. -/
def sentWebhookHeaderValue (securityHeaders extras : List (String × String)) (k : String) :
    Option String :=
  match headerLookup extras k with
  | some v => some v
  | none =>
      match headerLookup securityHeaders k with
      | some v => some v
      | none => headerLookup defaultWebhookHeaders k

/-- HITL workflow result, `src/types.ts` (`HITLWorkflowResult`). -/
structure HITLWorkflowResult : Type where
  approved : Bool
  reason : Option String := none
  approvedBy : Option String := none
  responseTime : Int := 0
deriving DecidableEq, Repr

/-- Approval request record (`src/types.ts` `ApprovalRequest`).  The tool
call is kept as a raw JS value because `waitForApproval` installs the empty
object `{}` as a placeholder for unknown ids. -/
structure ApprovalRequestM : Type where
  id : String
  toolCall : JSValue
  timestamp : String
  expiresAt : Option String := none

/-- Entry of the pending-approvals registry (`hitl-manager.ts` lines 20-32).
The promise resolve/reject handlers are represented by the delivery fields
of the step functions; `waitingForApproval` tracks whether a waiter
attached. -/
structure PendingEntry : Type where
  request : ApprovalRequestM
  waitingForApproval : Bool
  earlyResponse : Option HITLWorkflowResult := none

/-- Lookup in the pending-approvals map (`Map.get`). -/
def regGet (reg : List (String × PendingEntry)) (k : String) : Option PendingEntry :=
  (reg.find? (fun p => p.1 == k)).map Prod.snd

/-- Insertion/update in the pending-approvals map (`Map.set`). -/
def regSet : List (String × PendingEntry) → String → PendingEntry →
    List (String × PendingEntry)
  | [], k, v => [(k, v)]
  | (k2, v2) :: rest, k, v =>
      if k2 == k then (k, v) :: rest else (k2, v2) :: regSet rest k v

/-- Removal from the pending-approvals map (`Map.delete`). -/
def regDelete (reg : List (String × PendingEntry)) (k : String) :
    List (String × PendingEntry) :=
  reg.filter (fun p => p.1 != k)

/-- Approval response, `src/types.ts` (`ApprovalResponse`); the decision is
kept as a raw string, compared with `=== "APPROVE"`. -/
structure ApprovalResponse : Type where
  requestId : String
  decision : String
  reason : Option String := none
  approvedBy : Option String := none

/-- `JSON.stringify` of an approval response (field insertion order;
`undefined` optional fields are omitted).  String values are assumed
quote-free, as are all values exercised here. -/
def serializeApprovalResponse (r : ApprovalResponse) : String :=
  "\x7b\"requestId\":\"" ++ r.requestId ++ "\",\"decision\":\"" ++ r.decision ++ "\""
    ++ (match r.reason with
        | some re => ",\"reason\":\"" ++ re ++ "\""
        | none => "")
    ++ (match r.approvedBy with
        | some ab => ",\"approvedBy\":\"" ++ ab ++ "\""
        | none => "")
    ++ "\x7d"

/-- Error taxonomy of the HITL manager (`errors.ts` and the `AgentGuardError`
codes thrown in `hitl-manager.ts`). -/
inductive HITLError : Type where
  | unknownRequestId : String → HITLError
  | invalidResponseSignature : String → HITLError
  | requestIdMismatch : HITLError
  | duplicateNonce : HITLError
  | approvalTimeout : String → HITLError
  | approvalCancelled : String → HITLError
  | webhookFailed : String → HITLError
deriving DecidableEq, Repr

/-- Post-state and delivery of a successful `handleApprovalResponse`. -/
structure HandleResponseEffect : Type where
  registry : List (String × PendingEntry)
  nonces : List String
  delivered : Option HITLWorkflowResult

/-- Embedding of `HITLManager.handleApprovalResponse` (`hitl-manager.ts`
lines 170-261).  `security` is the optional `webhookSecurity` instance
(carrying its signing secret), `nonces` the processed-nonce set, `nowMs` the
clock, and `responseTime` the externally computed `now − Date.parse
(request.timestamp)`.  The source passes `pending.request.id` as a third
argument to `validateResponse`, which the two-parameter declaration drops. -/
def handleApprovalResponse (security : Option WebhookSecurityConfig) (nonces : List String)
    (registry : List (String × PendingEntry)) (response : ApprovalResponse)
    (headers : Option (List (String × String))) (nowMs : Int) (responseTime : Int) :
    Except HITLError HandleResponseEffect :=
  match regGet registry response.requestId with
  | none => .error (.unknownRequestId response.requestId)
  | some pending =>
      let checked : Except HITLError (List String) :=
        match security with
        | none => .ok nonces
        | some cfg =>
            match headers with
            | none =>
                .error (.invalidResponseSignature
                  "Invalid approval response: Missing required security headers")
            | some hs =>
                let responseBody := serializeApprovalResponse response
                let validation := validateResponse cfg.signingSecret nowMs responseBody hs
                if validation.valid = false then
                  .error (.invalidResponseSignature
                    ("Invalid approval response: " ++ validation.reason.getD ""))
                else if headerLookup hs "x-agentguard-request-id" ≠ some response.requestId then
                  .error .requestIdMismatch
                else
                  match headerLookup hs "x-agentguard-nonce" with
                  | some nonce =>
                      if nonce ≠ "" then
                        if nonces.contains nonce then .error .duplicateNonce
                        else .ok (nonce :: nonces)
                      else .ok nonces
                  | none => .ok nonces
      match checked with
      | .error e => .error e
      | .ok nonces2 =>
          let result : HITLWorkflowResult :=
            { approved := response.decision == "APPROVE", reason := response.reason,
              approvedBy := response.approvedBy, responseTime := responseTime }
          if pending.waitingForApproval then
            .ok { registry := regDelete registry response.requestId, nonces := nonces2,
                  delivered := some result }
          else
            .ok { registry := regSet registry response.requestId
                    { pending with earlyResponse := some result },
                  nonces := nonces2, delivered := none }

/-- Outcome of one `waitForApproval` call at attach time: either an early
response is consumed immediately, or the entry is (created and) marked
waiting. -/
inductive WaitStep : Type where
  | immediateResult : List (String × PendingEntry) → HITLWorkflowResult → WaitStep
  | waiting : List (String × PendingEntry) → WaitStep

/-- Embedding of the synchronous part of `HITLManager.waitForApproval`
(`hitl-manager.ts` lines 100-165): an existing entry with an early response
resolves immediately (and is removed); an existing entry without one is
marked waiting; an unknown id gets a fresh entry with the empty-object
placeholder tool call, marked waiting.  Blocking is modelled by the separate
timeout/response/cancel transitions. -/
def waitForApproval (registry : List (String × PendingEntry)) (requestId : String)
    (nowIso : String) : WaitStep :=
  match regGet registry requestId with
  | some entry =>
      match entry.earlyResponse with
      | some result => .immediateResult (regDelete registry requestId) result
      | none => .waiting (regSet registry requestId { entry with waitingForApproval := true })
  | none =>
      .waiting (regSet registry requestId
        { request := { id := requestId, toolCall := .obj [], timestamp := nowIso },
          waitingForApproval := true, earlyResponse := none })

/-- The timer armed by `waitForApproval` firing: the entry is removed and the
waiter fails with `ApprovalTimeoutError`. -/
def approvalTimeoutFire (registry : List (String × PendingEntry)) (requestId : String) :
    List (String × PendingEntry) × HITLError :=
  (regDelete registry requestId, .approvalTimeout requestId)

/-- Embedding of `HITLManager.cancelApproval` (`hitl-manager.ts` lines
343-359): removal plus rejection; the rejection reaches a waiter only when
one attached (otherwise the placeholder handler just logs). -/
def cancelApproval (registry : List (String × PendingEntry)) (requestId : String)
    (reason : String) : List (String × PendingEntry) × Bool × Option HITLError :=
  match regGet registry requestId with
  | none => (registry, false, none)
  | some pending =>
      (regDelete registry requestId, true,
        if pending.waitingForApproval then some (.approvalCancelled reason) else none)

/-- Outcome of a webhook dispatch: attempts made, backoff sleeps performed
(milliseconds, in order), and delivery result. -/
structure SendOutcome : Type where
  attemptsMade : Nat
  waitsMs : List Nat
  result : Except Unit Unit

/-- The retry loop of `HITLManager.sendWebhook` (`hitl-manager.ts` lines
295-330) from attempt number `attempt` with the given number of remaining
iterations.  `attemptSucceeds k` abstracts the k-th `fetch`: `false` covers
an HTTP non-2xx response, a network error or an `AbortSignal` timeout alike
(all land in the same `catch`).  When the iteration budget is exhausted
without an attempt the loop falls through and the dispatch resolves
successfully. -/
def sendWebhookFrom (attemptSucceeds : Nat → Bool) (attempt : Nat) :
    Nat → SendOutcome
  | 0 => ⟨0, [], .ok ()⟩
  | remaining + 1 =>
      if attemptSucceeds attempt then ⟨1, [], .ok ()⟩
      else if remaining = 0 then ⟨1, [], .error ()⟩
      else
        let rest := sendWebhookFrom attemptSucceeds (attempt + 1) remaining
        ⟨rest.attemptsMade + 1, 2 ^ (attempt - 1) * 1000 :: rest.waitsMs, rest.result⟩

/-- Embedding of the whole `sendWebhook` loop: `for (let attempt = 1;
attempt <= retries; attempt++)` with `retries = config.retries ?? 3`.  A
non-positive `retries` yields zero iterations. -/
def sendWebhook (attemptSucceeds : Nat → Bool) (retries : Int) : SendOutcome :=
  sendWebhookFrom attemptSucceeds 1 retries.toNat

/-- Effective retry count: `this.webhookConfig.retries ?? 3` (nullish
coalescing keeps an explicit 0). -/
def effectiveRetries (c : WebhookConfig) : Int := c.retries.getD 3

/-- Embedding of `HITLManager.createApprovalRequest` (`hitl-manager.ts`
lines 49-95): insert the pending entry (not yet waiting), then, when a
webhook is configured, dispatch it; on dispatch failure delete the entry and
fail with the `WEBHOOK_FAILED` error.  The fresh id, clock values and the
dispatch result are passed in explicitly. -/
def createApprovalRequest (registry : List (String × PendingEntry)) (requestId : String)
    (toolCall : JSValue) (nowIso expiresIso : String) (webhookConfigured : Bool)
    (sendResult : Except Unit Unit) :
    List (String × PendingEntry) × Except HITLError String :=
  let request : ApprovalRequestM :=
    { id := requestId, toolCall := toolCall, timestamp := nowIso, expiresAt := some expiresIso }
  let reg1 := regSet registry requestId
    { request := request, waitingForApproval := false, earlyResponse := none }
  if webhookConfigured then
    match sendResult with
    | .ok () => (reg1, .ok requestId)
    | .error () =>
        (regDelete reg1 requestId,
         .error (.webhookFailed "Failed to send approval request webhook"))
  else (reg1, .ok requestId)

/-- The `typeof args[0] === "object" && args[0] !== null` test of
`extractParameters`: arrays and plain objects pass, `null` and scalars do
not. -/
def isJsObjectValue : JSValue → Bool
  | .arr _ => true
  | .obj _ => true
  | _ => false

/-- Embedding of `AgentGuard.extractParameters` (`agentguard.ts` lines
348-365): no arguments give an empty map; a single object argument becomes
the parameters value itself; otherwise arguments are indexed `arg0, arg1,
…`. -/
def extractParameters (args : List JSValue) : JSValue :=
  match args with
  | [] => .obj []
  | [a] =>
      if isJsObjectValue a then a
      else .obj [("arg0", a)]
  | _ => .obj (args.enum.map (fun p => ("arg" ++ natToDecimalString p.1, p.2)))

/-- Construction of the `ToolCall` object in the wrapped function
(`agentguard.ts` lines 95-101): the optional fields are spread only when
truthy (an empty string is falsy and is omitted). -/
def mkToolCall (toolName : String) (args : List JSValue) (agentId sessionId : Option String)
    (metadata : Option (List (String × JSValue))) : ToolCall :=
  { toolName := toolName, parameters := extractParameters args,
    agentId := agentId.bind (fun s => if s = "" then none else some s),
    sessionId := sessionId.bind (fun s => if s = "" then none else some s),
    metadata := metadata }

/-- Outcome of one wrapped-tool invocation. -/
inductive CallOutcome (α : Type) : Type where
  | value : α → CallOutcome α
  | policyViolation : Option PolicyRule → ToolCall → String → CallOutcome α
  | evalThrown : EvalError → CallOutcome α

/-- Embedding of the wrapped function built by `AgentGuard.protect`
(`agentguard.ts` lines 93-148), paired with whether the underlying tool was
invoked.  The human-approval outcome of the `REQUIRE_HUMAN_APPROVAL` branch
is passed in as `approval`; on `BLOCK` the thrown `PolicyViolationError`
carries `guardResult.rule!` — which is `none` when the decision came from
the default action of the policy — and the tool call. -/
def wrappedToolCall {α : Type} (policy : Policy) (toolName : String)
    (agentId sessionId : Option String) (metadata : Option (List (String × JSValue)))
    (toolFunction : List JSValue → α) (approval : HITLWorkflowResult) (timestamp : String)
    (args : List JSValue) : CallOutcome α × Bool :=
  let toolCall := mkToolCall toolName args agentId sessionId metadata
  match evaluateToolCall policy toolCall timestamp with
  | .error e => (.evalThrown e, false)
  | .ok res =>
      match res.decision with
      | .ALLOW => (.value (toolFunction args), true)
      | .BLOCK =>
          (.policyViolation res.rule toolCall ("Tool call blocked by policy: " ++ res.reason),
           false)
      | .REQUIRE_HUMAN_APPROVAL =>
          if approval.approved then (.value (toolFunction args), true)
          else
            (.policyViolation res.rule toolCall
              ("Tool call denied by human reviewer: " ++ approval.reason.getD "No reason provided"),
             false)

/-- A guard-wrapped tool: the callable plus the `__agentguard_wrapped`
marker and the `__original_function` reference installed by
`Object.defineProperty` (both non-writable). -/
structure WrappedTool (α : Type) : Type where
  run : List JSValue → CallOutcome α × Bool
  agentguardWrapped : Bool
  originalFunction : List JSValue → α

/-- Embedding of `AgentGuard.protect` (`agentguard.ts` lines 84-166): no
validation of `toolName` or of the tool is performed; the wrapped callable
is returned with its marker properties for every input. -/
def protect {α : Type} (policy : Policy) (toolName : String)
    (toolFunction : List JSValue → α) (agentId sessionId : Option String)
    (metadata : Option (List (String × JSValue))) (approval : HITLWorkflowResult)
    (timestamp : String) : WrappedTool α :=
  { run := wrappedToolCall policy toolName agentId sessionId metadata toolFunction
      approval timestamp,
    agentguardWrapped := true,
    originalFunction := toolFunction }

/-- Fixture policy with an empty rule set and default allow. -/
def policyAllow : Policy :=
  { version := "1.0", name := "allow-all", defaultAction := .ALLOW, rules := [] }

/-- Fixture policy with an empty rule set and default block. -/
def policyDefaultBlock : Policy :=
  { version := "1.0", name := "block-all", defaultAction := .BLOCK, rules := [] }

/-- Fixture tool call whose `tags` parameter is an array. -/
def toolCallC3 : ToolCall :=
  { toolName := "t", parameters := .obj [("tags", .arr [.str "a"])] }

/-- Fixture evaluation context for the structural-equality claims. -/
def ctxC3 : JSValue := evaluationContextToJs policyAllow toolCallC3 "ts"

/-- Fixture `equals` condition whose value is an array structurally equal to
the extracted one. -/
def condC3eq : PolicyCondition :=
  { field := "toolCall.parameters.tags", operator := "equals", value := .arr [.str "a"] }

/-- Fixture `in` condition whose array value contains an element
structurally equal to the extracted one. -/
def condC3in : PolicyCondition :=
  { field := "toolCall.parameters.tags", operator := "in",
    value := .arr [.arr [.str "a"]] }

/-- Fixture `regex` condition with a syntactically invalid pattern. -/
def condC4 : PolicyCondition :=
  { field := "toolCall.toolName", operator := "regex", value := .str "(" }

/-- Fixture tool: constant function. -/
def toolC5 : List JSValue → Nat := fun _ => 0

/-- Fixture approval outcome (unused by the `BLOCK` path). -/
def approvalC5 : HITLWorkflowResult := { approved := true }

/-- Fixture arguments of the blocked call. -/
def argsC5 : List JSValue := [.obj [("x", .num 1)]]

/-- 32-character fixture signing secret. -/
def secretC : String := "0123456789abcdef0123456789abcdef"

/-- Fixture security configuration. -/
def securityC : WebhookSecurityConfig := { signingSecret := secretC }

/-- Fixture pending entry with an attached waiter. -/
def entryC6 : PendingEntry :=
  { request := { id := "r1", toolCall := .obj [], timestamp := "2020-01-01T00:00:00.000Z" },
    waitingForApproval := true, earlyResponse := none }

/-- Fixture registry holding the single entry `r1`. -/
def registryC6 : List (String × PendingEntry) := [("r1", entryC6)]

/-- Fixture approval response for `r1`. -/
def responseC6 : ApprovalResponse := { requestId := "r1", decision := "APPROVE" }

/-- Fixture inbound headers: signature, timestamp and nonce present, the
request-id header absent. -/
def headersC6 : List (String × String) :=
  [("x-agentguard-signature", "bogus"), ("x-agentguard-timestamp", "0"),
   ("x-agentguard-nonce", "n1")]

/-- Fixture security headers of an outgoing request. -/
def securityHeadersC7 : List (String × String) :=
  generateHeaders secretC "payload" 1000 "nonce-x"

/-- Guard result of a default-action block (no matching rule). -/
def guardResultBlock : GuardResult :=
  { decision := .BLOCK, rule := none,
    reason := "No matching rules found, using default action" }

/-- The fresh registry entry `waitForApproval` installs for an unknown id:
empty-object placeholder tool call, marked waiting. -/
def waitingPlaceholderEntry (requestId nowIso : String) : PendingEntry :=
  { request := { id := requestId, toolCall := .obj [], timestamp := nowIso },
    waitingForApproval := true, earlyResponse := none }

/-! ### Theorems -/

theorem mem_orderedInsertRule {b r : PolicyRule} {l : List PolicyRule} :
    b ∈ orderedInsertRule r l ↔ b = r ∨ b ∈ l := by
  induction l with
  | nil => simp [orderedInsertRule]
  | cons y ys ih =>
      rw [orderedInsertRule]
      by_cases hc : rulePriority y ≤ rulePriority r
      · simp [hc]
      · simp [hc, ih]
        tauto

theorem sortedDesc_orderedInsertRule (r : PolicyRule) (l : List PolicyRule)
    (h : l.Pairwise (fun a b => rulePriority b ≤ rulePriority a)) :
    (orderedInsertRule r l).Pairwise (fun a b => rulePriority b ≤ rulePriority a) := by
  induction l with
  | nil => simp [orderedInsertRule]
  | cons y ys ih =>
      rw [orderedInsertRule]
      rw [List.pairwise_cons] at h
      obtain ⟨hy, hys⟩ := h
      by_cases hc : rulePriority y ≤ rulePriority r
      · rw [if_pos hc, List.pairwise_cons]
        refine ⟨?_, List.pairwise_cons.mpr ⟨hy, hys⟩⟩
        intro b hb
        rcases List.mem_cons.mp hb with rfl | hbys
        · exact hc
        · exact le_trans (hy b hbys) hc
      · rw [if_neg hc, List.pairwise_cons]
        refine ⟨?_, ih hys⟩
        intro b hb
        rcases mem_orderedInsertRule.mp hb with rfl | hbys
        · exact le_of_lt (lt_of_not_le hc)
        · exact hy b hbys

theorem sortedDesc_sortRulesByPriority (l : List PolicyRule) :
    (sortRulesByPriority l).Pairwise (fun a b => rulePriority b ≤ rulePriority a) := by
  induction l with
  | nil => simp [sortRulesByPriority]
  | cons r rs ih => exact sortedDesc_orderedInsertRule r _ ih

theorem find?_orderedInsertRule (q : PolicyRule → Bool) (r : PolicyRule) (l : List PolicyRule)
    (h : l.Pairwise (fun a b => rulePriority b ≤ rulePriority a)) :
    (orderedInsertRule r l).find? q =
      match l.find? q with
      | none => if q r then some r else none
      | some b =>
          if q r = true ∧ rulePriority b ≤ rulePriority r then some r else some b := by
  induction l with
  | nil => cases hq : q r <;> simp [orderedInsertRule, List.find?, hq]
  | cons y ys ih =>
      rw [orderedInsertRule]
      rw [List.pairwise_cons] at h
      obtain ⟨hy, hys⟩ := h
      by_cases hc : rulePriority y ≤ rulePriority r
      · rw [if_pos hc]
        cases hq : q r with
        | true =>
            rw [List.find?_cons_of_pos _ hq]
            cases hfind : (y :: ys).find? q with
            | none => simp [hq]
            | some b =>
                have hb : b ∈ y :: ys := List.mem_of_find?_eq_some hfind
                have hble : rulePriority b ≤ rulePriority r := by
                  rcases List.mem_cons.mp hb with rfl | hbys
                  · exact hc
                  · exact le_trans (hy b hbys) hc
                simp [hq, hble]
        | false =>
            rw [List.find?_cons_of_neg _ (by simp [hq])]
            cases hfind : (y :: ys).find? q with
            | none => simp [hq, hfind]
            | some b => simp [hq, hfind]
      · rw [if_neg hc]
        cases hqy : q y with
        | true =>
            rw [List.find?_cons_of_pos _ hqy, List.find?_cons_of_pos _ hqy]
            have : ¬(q r = true ∧ rulePriority y ≤ rulePriority r) := by
              rintro ⟨-, hle⟩; exact hc hle
            simp [this]
        | false =>
            rw [List.find?_cons_of_neg _ (by simp [hqy]), List.find?_cons_of_neg _ (by simp [hqy])]
            exact ih hys

theorem find?_sortRulesByPriority (q : PolicyRule → Bool) (rules : List PolicyRule) :
    (sortRulesByPriority rules).find? q = specFoldBest q rules := by
  induction rules with
  | nil => simp [sortRulesByPriority, specFoldBest, List.find?]
  | cons r rs ih =>
      rw [sortRulesByPriority,
        find?_orderedInsertRule q r _ (sortedDesc_sortRulesByPriority rs), ih]
      rfl


theorem specFoldBest_eq_none_iff (q : PolicyRule → Bool) (l : List PolicyRule) :
    specFoldBest q l = none ↔ l.filter q = [] := by
  induction l with
  | nil => simp [specFoldBest]
  | cons r rs ih =>
      cases hf : specFoldBest q rs with
      | none =>
          have hemp : rs.filter q = [] := ih.mp hf
          cases hq : q r with
          | true => simp [specFoldBest, hf, hq, List.filter_cons]
          | false => simp [specFoldBest, hf, hq, List.filter_cons, hemp]
      | some b =>
          have hne : rs.filter q ≠ [] := fun he => by
            rw [ih.mpr he] at hf; exact Option.noConfusion hf
          cases hq : q r with
          | true =>
              constructor
              · intro h
                simp only [specFoldBest, hf] at h
                split at h <;> exact Option.noConfusion h
              · intro h
                rw [List.filter_cons, if_pos (by simp [hq])] at h
                exact List.noConfusion h
          | false =>
              constructor
              · intro h
                simp only [specFoldBest, hf] at h
                split at h <;> exact Option.noConfusion h
              · intro h
                rw [List.filter_cons, if_neg (by simp [hq])] at h
                exact absurd h hne

theorem specFoldBest_mem_max (q : PolicyRule → Bool) (l : List PolicyRule) (b : PolicyRule)
    (h : specFoldBest q l = some b) :
    b ∈ l.filter q ∧ ∀ y ∈ l.filter q, rulePriority y ≤ rulePriority b := by
  induction l generalizing b with
  | nil => simp [specFoldBest] at h
  | cons r rs ih =>
      have hfilt : q r = true → (r :: rs).filter q = r :: rs.filter q := fun hq => by
        rw [List.filter_cons, if_pos (by simp [hq])]
      have hfilf : q r = false → (r :: rs).filter q = rs.filter q := fun hq => by
        rw [List.filter_cons, if_neg (by simp [hq])]
      cases hq : q r with
      | false =>
          cases hf : specFoldBest q rs with
          | none =>
              rw [specFoldBest, hf, hq] at h
              simp at h
          | some c =>
              simp only [specFoldBest, hf] at h
              rw [if_neg (by simp [hq])] at h
              obtain rfl : c = b := Option.some.inj h
              obtain ⟨hmem, hmax⟩ := ih c hf
              rw [hfilf hq]
              exact ⟨hmem, hmax⟩
      | true =>
          cases hf : specFoldBest q rs with
          | none =>
              simp only [specFoldBest, hf, hq, if_true] at h
              obtain rfl : r = b := Option.some.inj (by simpa using h)
              have hemp : rs.filter q = [] := (specFoldBest_eq_none_iff q rs).mp hf
              rw [hfilt hq, hemp]
              constructor
              · exact List.mem_singleton_self r
              · intro y hy
                rw [List.mem_singleton.mp hy]
          | some c =>
              obtain ⟨hmem, hmax⟩ := ih c hf
              by_cases hcr : rulePriority c ≤ rulePriority r
              · simp only [specFoldBest, hf] at h
                rw [if_pos ⟨hq, hcr⟩] at h
                obtain rfl : r = b := Option.some.inj h
                rw [hfilt hq]
                constructor
                · exact List.mem_cons_self r _
                · intro y hy
                  rcases List.mem_cons.mp hy with rfl | hys
                  · exact le_refl _
                  · exact le_trans (hmax y hys) hcr
              · simp only [specFoldBest, hf] at h
                rw [if_neg (fun hand => hcr hand.2)] at h
                obtain rfl : c = b := Option.some.inj h
                rw [hfilt hq]
                constructor
                · exact List.mem_cons_of_mem r hmem
                · intro y hy
                  rcases List.mem_cons.mp hy with rfl | hys
                  · exact le_of_lt (lt_of_not_le hcr)
                  · exact hmax y hys

theorem find?_congrOn {α : Type} (p q : α → Bool) (l : List α)
    (h : ∀ x ∈ l, p x = q x) : l.find? p = l.find? q := by
  induction l with
  | nil => rfl
  | cons a l ih =>
      have ha := h a (by simp)
      cases hp : p a with
      | true =>
          rw [List.find?_cons_of_pos _ hp, List.find?_cons_of_pos _ (ha ▸ hp)]
      | false =>
          rw [List.find?_cons_of_neg _ (by simp [hp]),
            List.find?_cons_of_neg _ (by simp [← ha, hp])]
          exact ih (fun x hx => h x (by simp [hx]))

theorem specFoldBest_eq_specBestRule (ctx : JSValue) (rules : List PolicyRule) :
    specFoldBest (ruleMatches ctx) rules = specBestRule ctx rules := by
  induction rules with
  | nil => rfl
  | cons r rs ih =>
      have hfilt : ruleMatches ctx r = true →
          (r :: rs).filter (ruleMatches ctx) = r :: rs.filter (ruleMatches ctx) :=
        fun hq => by rw [List.filter_cons, if_pos (by simp [hq])]
      have hfilf : ruleMatches ctx r = false →
          (r :: rs).filter (ruleMatches ctx) = rs.filter (ruleMatches ctx) :=
        fun hq => by rw [List.filter_cons, if_neg (by simp [hq])]
      cases hq : ruleMatches ctx r with
      | false =>
          have hstep : specFoldBest (ruleMatches ctx) (r :: rs)
              = specFoldBest (ruleMatches ctx) rs := by
            cases hf : specFoldBest (ruleMatches ctx) rs with
            | none => simp [specFoldBest, hf, hq]
            | some b =>
                simp only [specFoldBest, hf]
                rw [if_neg (by simp [hq])]
          rw [hstep, ih, specBestRule, specBestRule]
          simp only [hfilf hq]
      | true =>
          cases hf : specFoldBest (ruleMatches ctx) rs with
          | none =>
              have hemp : rs.filter (ruleMatches ctx) = []
                := (specFoldBest_eq_none_iff _ rs).mp hf
              have hstep : specFoldBest (ruleMatches ctx) (r :: rs) = some r := by
                simp [specFoldBest, hf, hq]
              rw [hstep, specBestRule]
              simp only [hfilt hq, hemp]
              rw [List.find?_cons_of_pos _ (by simp)]
          | some b =>
              obtain ⟨hbmem, hbmax⟩ := specFoldBest_mem_max _ rs b hf
              by_cases hbr : rulePriority b ≤ rulePriority r
              · have hstep : specFoldBest (ruleMatches ctx) (r :: rs) = some r := by
                  simp only [specFoldBest, hf]
                  rw [if_pos ⟨hq, hbr⟩]
                rw [hstep, specBestRule]
                simp only [hfilt hq]
                rw [List.find?_cons_of_pos]
                simp only [List.all_eq_true, decide_eq_true_eq]
                intro y hy
                rcases List.mem_cons.mp hy with rfl | hys
                · exact le_refl _
                · exact le_trans (hbmax y hys) hbr
              · have hstep : specFoldBest (ruleMatches ctx) (r :: rs) = some b := by
                  simp only [specFoldBest, hf]
                  rw [if_neg (fun hand => hbr hand.2)]
                rw [hstep, specBestRule]
                simp only [hfilt hq]
                rw [List.find?_cons_of_neg]
                · rw [find?_congrOn
                    (fun x => (r :: rs.filter (ruleMatches ctx)).all
                      (fun y => decide (rulePriority y ≤ rulePriority x)))
                    (fun x => (rs.filter (ruleMatches ctx)).all
                      (fun y => decide (rulePriority y ≤ rulePriority x)))
                    (rs.filter (ruleMatches ctx)) ?_]
                  · have hspec : specBestRule ctx rs = some b := by rw [← ih, hf]
                    rw [specBestRule] at hspec
                    exact hspec.symm
                  · intro x hx
                    simp only [List.all_cons]
                    cases hrx : (rs.filter (ruleMatches ctx)).all
                        (fun y => decide (rulePriority y ≤ rulePriority x)) with
                    | true =>
                        have hbx : rulePriority b ≤ rulePriority x := by
                          have := List.all_eq_true.mp hrx b hbmem
                          simpa using this
                        have hrle : rulePriority r ≤ rulePriority x :=
                          le_trans (le_of_lt (lt_of_not_le hbr)) hbx
                        simp [hrle]
                    | false => simp
                · simp only [List.all_cons, Bool.and_eq_true, List.all_eq_true,
                    decide_eq_true_eq, not_and, not_forall]
                  intro _
                  exact ⟨b, hbmem, hbr⟩

theorem firstMatchingRule_ok (ctx : JSValue) (l : List PolicyRule) (o : Option PolicyRule)
    (h : firstMatchingRule ctx l = .ok o) : o = l.find? (ruleMatches ctx) := by
  induction l generalizing o with
  | nil =>
      simp only [firstMatchingRule] at h
      cases h
      rfl
  | cons r rs ih =>
      cases he : evaluateRule r ctx with
      | error e => rw [firstMatchingRule, he] at h; exact Except.noConfusion h
      | ok bv =>
          cases bv with
          | true =>
              rw [firstMatchingRule, he] at h
              cases h
              rw [List.find?_cons_of_pos _ (by simp [ruleMatches, he])]
          | false =>
              rw [firstMatchingRule, he] at h
              rw [List.find?_cons_of_neg _ (by simp [ruleMatches, he])]
              exact ih o h

/-- C1.  For every policy and tool call on which the evaluator returns a
decision, that decision is the action of the highest-priority rule all of
whose conditions match the evaluation context derived from the call, with
priority ties resolved in declaration order (`specBestRule` is that
selection, written from the claim), and it is the `defaultAction` of the policy
with no attached rule when no rule matches. -/
theorem C1_decision_soundness (policy : Policy) (toolCall : ToolCall) (timestamp : String)
    (res : GuardResult)
    (h : evaluateToolCall policy toolCall timestamp = .ok res) :
    (match specBestRule (evaluationContextToJs policy toolCall timestamp) policy.rules with
     | some r => res.decision = r.action ∧ res.rule = some r
           ∧ res.reason = "Matched rule: " ++ r.name
     | none => res.decision = policy.defaultAction ∧ res.rule = none
           ∧ res.reason = "No matching rules found, using default action") := by
  rw [evaluateToolCall] at h
  cases hf : firstMatchingRule (evaluationContextToJs policy toolCall timestamp)
      (sortRulesByPriority policy.rules) with
  | error e => rw [hf] at h; exact Except.noConfusion h
  | ok o =>
      rw [hf] at h
      have hfind := firstMatchingRule_ok _ _ _ hf
      rw [find?_sortRulesByPriority, specFoldBest_eq_specBestRule] at hfind
      cases o with
      | some r =>
          cases h
          rw [← hfind]
          exact ⟨rfl, rfl, rfl⟩
      | none =>
          cases h
          rw [← hfind]
          exact ⟨rfl, rfl, rfl⟩

/-- Witness for C1 at the concrete "priority override" fixture: both rules
match, the priority-100 rule is selected and its `ALLOW` wins over the
priority-10 `BLOCK`. -/
theorem C1_decision_soundness_witness :
    (match specBestRule (evaluationContextToJs policyB toolCallB "t") policyB.rules with
     | some r => guardResultB.decision = r.action ∧ guardResultB.rule = some r
           ∧ guardResultB.reason = "Matched rule: " ++ r.name
     | none => guardResultB.decision = policyB.defaultAction ∧ guardResultB.rule = none
           ∧ guardResultB.reason = "No matching rules found, using default action") :=
  C1_decision_soundness policyB toolCallB "t" guardResultB rfl

theorem foldl_or_xor_self (l : List Char) :
    (l.zip l).foldl (fun acc p => acc ||| (p.1.toNat ^^^ p.2.toNat)) 0 = 0 := by
  have haux : ∀ (l : List Char) (acc : Nat),
      (l.zip l).foldl (fun acc p => acc ||| (p.1.toNat ^^^ p.2.toNat)) acc = acc := by
    intro l
    induction l with
    | nil => intro acc; rfl
    | cons c rest ih =>
        intro acc
        simp only [List.zip_cons_cons, List.foldl_cons, Nat.xor_self, Nat.or_zero]
        exact ih acc
  exact haux l 0

theorem secureCompare_self (s : String) : secureCompare s s = true := by
  rw [secureCompare, if_neg (by simp), foldl_or_xor_self]
  rfl

/-- C2.  The signing primitive diverges from the claim: the message actually
signed by the four-argument call `signPayload(payload, requestId,
timestampMs, nonce)` made throughout the repository is not the claimed
`timestampMs.nonce.requestId.payload` (the request id slides into the
timestamp slot and the nonce argument is dropped), and consequently
tampering with the nonce does **not** flip verification to false:
verification of a signature produced with nonce "nonce-A" succeeds against
the distinct nonce "nonce-B". -/
theorem C2_sign_verify_code_bug :
    signMessage (.str "req-1") (.int 1000) "payload"
        ≠ specSignMessage 1000 "nonce-A" "req-1" "payload"
    ∧ ("nonce-A" : String) ≠ "nonce-B"
    ∧ verifySignatureCall5 secretC 99999999999 "payload"
        (signPayloadCall4 secretC "payload" "req-1" 1000 "nonce-A") "req-1" 1000 "nonce-B"
      = true := by
  refine ⟨by decide, by decide, ?_⟩
  have hnan : jsArgToNumber (JsArg.str "req-1") = none := by decide
  simp only [verifySignatureCall5, signPayloadCall4, verifySignature, hnan]
  exact secureCompare_self _

/-- C3 counterexample.  The extracted `tags` value is deep-equal (structural
equality) to the array value of the `equals` condition, yet the condition does
not match, because the source compares with `===` (reference identity on
arrays); likewise the `in` condition whose array contains a structurally
equal element does not match, because `includes` compares elements with
SameValueZero. -/
theorem C3_counterexample :
    specDeepEqual (extractFieldValue "toolCall.parameters.tags" ctxC3) (.arr [.str "a"]) = true
    ∧ evaluateCondition condC3eq ctxC3 = .ok false
    ∧ condC3in.value = .arr [.arr [.str "a"]]
    ∧ evaluateCondition condC3in ctxC3 = .ok false := by
  refine ⟨?_, rfl, rfl, rfl⟩
  have hx : extractFieldValue "toolCall.parameters.tags" ctxC3 = .arr [.str "a"] := rfl
  rw [hx]
  simp [specDeepEqual, specDeepEqualList]

/-- C3 as amended.  The `equals` operator matches iff the extracted value is
JavaScript-strict-equal (`===`) to the condition value — scalars by value,
arrays and mappings only by reference identity — and the `in` operator
matches iff some element of the array-typed condition value is
SameValueZero-equal to the extracted value, with non-array values giving
false. -/
theorem C3_strict_equality_semantics (cond : PolicyCondition) (ctx : JSValue) :
    (cond.operator = "equals" →
      evaluateCondition cond ctx
        = .ok (jsStrictEq (extractFieldValue cond.field ctx) cond.value))
    ∧ (cond.operator = "in" →
      evaluateCondition cond ctx
        = .ok (match cond.value with
            | .arr xs => xs.any (fun x => jsSameValueZero x (extractFieldValue cond.field ctx))
            | _ => false)) := by
  obtain ⟨f, op, v⟩ := cond
  constructor
  · rintro rfl
    rfl
  · rintro rfl
    rfl

/-- Witness for the amended C3 at the array fixture. -/
theorem C3_strict_equality_semantics_witness :
    condC3eq.operator = "equals"
    ∧ evaluateCondition condC3eq ctxC3
        = .ok (jsStrictEq (extractFieldValue condC3eq.field ctxC3) condC3eq.value) :=
  ⟨rfl, (C3_strict_equality_semantics condC3eq ctxC3).1 rfl⟩

/-- C4 counterexample.  A `regex` condition whose pattern does not compile
(`"("`) makes the evaluator throw instead of evaluating to non-match. -/
theorem C4_counterexample :
    jsRegexCompile "(" = none
    ∧ evaluateCondition condC4 ctxC3 = .error (.regexSyntaxError "(") :=
  ⟨rfl, rfl⟩

/-- C4 as amended.  Condition evaluation is total — every operator,
including unknown ones, returns a boolean — **except** that a `regex`
condition whose string value fails to compile throws (`new RegExp` raises
and `evaluateCondition` does not catch). -/
theorem C4_total_except_regex (cond : PolicyCondition) (ctx : JSValue) :
    (∃ b, evaluateCondition cond ctx = .ok b)
    ∨ (cond.operator = "regex" ∧ ∃ p, cond.value = .str p ∧ jsRegexCompile p = none
        ∧ evaluateCondition cond ctx = .error (.regexSyntaxError p)) := by
  obtain ⟨f, op, v⟩ := cond
  simp only [evaluateCondition]
  split
  case _ => exact .inl ⟨_, rfl⟩
  case _ => exact .inl ⟨_, rfl⟩
  case _ => exact .inl ⟨_, rfl⟩
  case _ => exact .inl ⟨_, rfl⟩
  case _ =>
    cases hval : extractFieldValue f ctx <;> cases hv : v
    all_goals try exact .inl ⟨_, rfl⟩
    rename_i a b
    dsimp only
    cases hc : jsRegexCompile b with
    | some re => exact .inl ⟨_, rfl⟩
    | none => exact .inr ⟨rfl, b, rfl, hc, rfl⟩
  case _ => exact .inl ⟨_, rfl⟩
  case _ => exact .inl ⟨_, rfl⟩
  case _ => exact .inl ⟨_, rfl⟩
  case _ => exact .inl ⟨_, rfl⟩
  case _ => exact .inl ⟨_, rfl⟩
  case _ => exact .inl ⟨_, rfl⟩

/-- C5 counterexample.  When the `BLOCK` decision comes from the
`defaultAction` of the policy with no matching rule, the thrown `PolicyViolation` carries
no rule at all (`guardResult.rule!` is `undefined`), not a synthetic
"default action" rule descriptor; the tool is not invoked. -/
theorem C5_counterexample :
    wrappedToolCall policyDefaultBlock "sometool" none none none toolC5 approvalC5 "ts" argsC5
      = (.policyViolation none (mkToolCall "sometool" argsC5 none none none)
          "Tool call blocked by policy: No matching rules found, using default action",
         false) := rfl

/-- C5 as amended.  On decision `BLOCK` the underlying tool is not invoked
and the call fails with a `PolicyViolation` carrying the tool call and the
rule field of the guard result — `some rule` when a rule matched, `none` when the
block came from the `defaultAction` of the policy. -/
theorem C5_block_no_invoke {α : Type} (policy : Policy) (toolName : String)
    (agentId sessionId : Option String) (metadata : Option (List (String × JSValue)))
    (toolFunction : List JSValue → α) (approval : HITLWorkflowResult) (timestamp : String)
    (args : List JSValue) (res : GuardResult)
    (h : evaluateToolCall policy (mkToolCall toolName args agentId sessionId metadata)
        timestamp = .ok res)
    (hb : res.decision = .BLOCK) :
    wrappedToolCall policy toolName agentId sessionId metadata toolFunction approval
        timestamp args
      = (.policyViolation res.rule (mkToolCall toolName args agentId sessionId metadata)
          ("Tool call blocked by policy: " ++ res.reason), false) := by
  simp only [wrappedToolCall, h, hb]

/-- Witness for the amended C5 at the default-block fixture. -/
theorem C5_block_no_invoke_witness :
    wrappedToolCall policyDefaultBlock "w" none none none toolC5 approvalC5 "ts" argsC5
      = (.policyViolation guardResultBlock.rule (mkToolCall "w" argsC5 none none none)
          ("Tool call blocked by policy: " ++ guardResultBlock.reason), false) :=
  C5_block_no_invoke policyDefaultBlock "w" none none none toolC5 approvalC5 "ts" argsC5
    guardResultBlock rfl rfl

/-- C8 counterexample.  `protect` performs no argument validation: called
with a whitespace-only tool name it does not fail with `InvalidArgument`
but returns the wrapped tool, marker set and original preserved. -/
theorem C8_counterexample :
    ("   ").toList.all (fun c => c = ' ') = true
    ∧ protect policyDefaultBlock "   " toolC5 none none none approvalC5 "ts"
      = { run := wrappedToolCall policyDefaultBlock "   " none none none toolC5
            approvalC5 "ts",
          agentguardWrapped := true, originalFunction := toolC5 } :=
  ⟨by decide, rfl⟩

/-- C8 as amended.  `protect` validates nothing: for every policy, tool name
(including empty or whitespace-only ones) and tool, it returns a wrapped
tool whose `__agentguard_wrapped` marker is set, whose
`__original_function` is the given tool, and whose callable runs the full
guard pipeline. -/
theorem C8_no_validation {α : Type} (policy : Policy) (toolName : String)
    (toolFunction : List JSValue → α) (agentId sessionId : Option String)
    (metadata : Option (List (String × JSValue))) (approval : HITLWorkflowResult)
    (timestamp : String) :
    (protect policy toolName toolFunction agentId sessionId metadata approval
        timestamp).agentguardWrapped = true
    ∧ (protect policy toolName toolFunction agentId sessionId metadata approval
        timestamp).originalFunction = toolFunction
    ∧ (protect policy toolName toolFunction agentId sessionId metadata approval
        timestamp).run
      = wrappedToolCall policy toolName agentId sessionId metadata toolFunction approval
          timestamp :=
  ⟨rfl, rfl, rfl⟩

/-- C6.  With security configured, an inbound response whose headers carry
signature, timestamp and nonce but **no** request-id header is not rejected
with `InvalidSignature("missing required security headers")` as the claim
requires: `validateResponse` only requires the three headers it knows, so
the response proceeds to signature verification (here failing the freshness
window, yielding reason "Invalid signature"); with a valid signature it
would fail as `RequestIdMismatch` instead.  The unit tests of this repository
exercise a `validateResponse(body, headers, expectedRequestId)` that checks
the request id, which the shipped two-parameter version cannot do. -/
theorem C6_missing_request_id_header_code_bug :
    headerLookup headersC6 "x-agentguard-request-id" = none
    ∧ handleApprovalResponse (some securityC) [] registryC6 responseC6 (some headersC6)
        1000000000 0
      = .error (.invalidResponseSignature "Invalid approval response: Invalid signature")
    ∧ (HITLError.invalidResponseSignature "Invalid approval response: Invalid signature"
        ≠ .invalidResponseSignature "Invalid approval response: Missing required security headers") := by
  refine ⟨rfl, ?_, by decide⟩
  with_unfolding_all rfl

theorem length_flatMap_const {α β : Type} (f : α → List β) (k : Nat)
    (hf : ∀ a, (f a).length = k) (l : List α) : (l.flatMap f).length = k * l.length := by
  induction l with
  | nil => simp
  | cons a l ih =>
      simp only [List.flatMap_cons, List.length_append, hf a, ih, List.length_cons]
      ring

theorem sha256Bytes_length (msg : List Nat) : (sha256Bytes msg).length = 32 := by
  simp [sha256Bytes, wordBytesBE]

theorem hmacSha256_length (key msg : List Nat) : (hmacSha256 key msg).length = 32 := by
  simp [hmacSha256, sha256Bytes_length]

theorem hmacSha256Hex_length (secret message : String) :
    (hmacSha256Hex secret message).length = 64 := by
  rw [hmacSha256Hex, bytesToHex]
  show (String.mk _).length = 64
  rw [String.length]
  rw [length_flatMap_const (fun b => [hexDigit (b / 16), hexDigit (b % 16)]) 2
    (fun a => rfl), hmacSha256_length]

/-- C7 counterexample.  A caller-supplied extra header with a security-set
key survives the merge: the sent signature header is the caller value "spoofed"
value, not the security-generated signature (which, being a hex HMAC digest,
has length 64).  The claim that the security-generated value wins over a
caller-supplied value is false. -/
theorem C7_counterexample :
    sentWebhookHeaderValue securityHeadersC7 [("x-agentguard-signature", "spoofed")]
        "x-agentguard-signature" = some "spoofed"
    ∧ headerLookup securityHeadersC7 "x-agentguard-signature"
        = some (signPayload secretC "payload" (.int 1000) (.str "nonce-x"))
    ∧ signPayload secretC "payload" (.int 1000) (.str "nonce-x") ≠ "spoofed" := by
  refine ⟨rfl, rfl, ?_⟩
  intro h
  have h64 : (signPayload secretC "payload" (.int 1000) (.str "nonce-x")).length = 64 :=
    hmacSha256Hex_length secretC (signMessage (.int 1000) (.str "nonce-x") "payload")
  rw [h] at h64
  exact absurd h64 (by decide)

/-- C7 as amended.  The outgoing header map is the spread
`{...defaults, ...securityHeaders, ...extras}`, in which the later source
wins: a caller-supplied extra header takes precedence over **every** key,
including the security set, while the security headers take precedence only
over the defaults. -/
theorem C7_header_merge (securityHeaders extras : List (String × String)) (k v : String) :
    (headerLookup extras k = some v →
      sentWebhookHeaderValue securityHeaders extras k = some v)
    ∧ (headerLookup extras k = none →
      sentWebhookHeaderValue securityHeaders extras k =
        match headerLookup securityHeaders k with
        | some v2 => some v2
        | none => headerLookup defaultWebhookHeaders k) := by
  constructor
  · intro h
    simp [sentWebhookHeaderValue, h]
  · intro h
    simp [sentWebhookHeaderValue, h]

/-- Witness for the amended C7: a non-security extra header is forwarded. -/
theorem C7_header_merge_witness :
    headerLookup [("Authorization", "Bearer tok")] "Authorization" = some "Bearer tok"
    ∧ sentWebhookHeaderValue securityHeadersC7 [("Authorization", "Bearer tok")]
        "Authorization" = some "Bearer tok" :=
  ⟨rfl, (C7_header_merge securityHeadersC7 [("Authorization", "Bearer tok")]
    "Authorization" "Bearer tok").1 rfl⟩

theorem regGet_regSet_self (reg : List (String × PendingEntry)) (k : String)
    (v : PendingEntry) : regGet (regSet reg k v) k = some v := by
  induction reg with
  | nil => simp [regGet, regSet, List.find?]
  | cons p rest ih =>
      rw [regSet]
      by_cases hk : p.1 == k
      · rw [if_pos hk]
        simp [regGet, List.find?]
      · rw [if_neg hk]
        rw [regGet, List.find?_cons_of_neg _ (by simpa using hk)]
        exact ih

theorem regGet_regDelete_self (reg : List (String × PendingEntry)) (k : String) :
    regGet (regDelete reg k) k = none := by
  induction reg with
  | nil => rfl
  | cons p rest ih =>
      rw [regDelete, List.filter_cons]
      by_cases hk : p.1 == k
      · rw [if_neg (by simp [bne, hk])]
        exact ih
      · rw [if_pos (by simp [bne, hk])]
        rw [regGet, List.find?_cons_of_neg _ (by simpa using hk)]
        exact ih

/-- C10.  For an id with no registry entry, `waitForApproval` does not fail
with an unknown-id error: it installs a fresh entry with the empty-object
placeholder tool call, marked waiting, and blocks; the armed timer firing
removes the entry and fails with `ApprovalTimeout`; a matching response
resolves the waiter (removing the entry); a cancellation removes the entry
and fails the waiter with `ApprovalCancelled`. -/
theorem C10_wait_unknown_id (registry : List (String × PendingEntry))
    (requestId nowIso : String) (responseTime : Int)
    (h : regGet registry requestId = none) :
    (waitForApproval registry requestId nowIso
      = .waiting (regSet registry requestId (waitingPlaceholderEntry requestId nowIso)))
    ∧ regGet (regSet registry requestId (waitingPlaceholderEntry requestId nowIso)) requestId
      = some (waitingPlaceholderEntry requestId nowIso)
    ∧ approvalTimeoutFire (regSet registry requestId (waitingPlaceholderEntry requestId nowIso))
        requestId
      = (regDelete (regSet registry requestId (waitingPlaceholderEntry requestId nowIso))
          requestId, .approvalTimeout requestId)
    ∧ regGet (regDelete (regSet registry requestId (waitingPlaceholderEntry requestId nowIso))
        requestId) requestId = none
    ∧ (∀ (resp : ApprovalResponse) (nonces : List String) (nowMs : Int),
        resp.requestId = requestId →
        handleApprovalResponse none nonces
            (regSet registry requestId (waitingPlaceholderEntry requestId nowIso))
            resp none nowMs responseTime
          = .ok (HandleResponseEffect.mk
              (regDelete (regSet registry requestId (waitingPlaceholderEntry requestId nowIso))
                requestId)
              nonces
              (some (HITLWorkflowResult.mk (resp.decision == "APPROVE") resp.reason
                resp.approvedBy responseTime))))
    ∧ (∀ reason : String,
        cancelApproval (regSet registry requestId (waitingPlaceholderEntry requestId nowIso))
            requestId reason
          = (regDelete (regSet registry requestId (waitingPlaceholderEntry requestId nowIso))
              requestId, true, some (.approvalCancelled reason))) := by
  refine ⟨?_, regGet_regSet_self _ _ _, rfl, regGet_regDelete_self _ _, ?_, ?_⟩
  · rw [waitForApproval, h]
    rfl
  · intro resp nonces nowMs hr
    subst hr
    rw [handleApprovalResponse, regGet_regSet_self]
    rfl
  · intro reason
    rw [cancelApproval, regGet_regSet_self]
    rfl

/-- Witness for C10 at the empty registry. -/
theorem C10_wait_unknown_id_witness :
    waitForApproval [] "r9" "2020-01-01T00:00:00.000Z"
      = .waiting (regSet [] "r9" (waitingPlaceholderEntry "r9" "2020-01-01T00:00:00.000Z")) :=
  (C10_wait_unknown_id [] "r9" "2020-01-01T00:00:00.000Z" 0 rfl).1

theorem sendWebhookFrom_attempts_le (att : Nat → Bool) (n : Nat) :
    ∀ attempt, (sendWebhookFrom att attempt n).attemptsMade ≤ n := by
  induction n with
  | zero => intro attempt; simp [sendWebhookFrom]
  | succ m ih =>
      intro attempt
      rw [sendWebhookFrom]
      by_cases hs : att attempt
      · simp [hs]
      · rw [if_neg (by simp [hs])]
        by_cases hm : m = 0
        · simp [hm]
        · rw [if_neg hm]
          simp only []
          have := ih (attempt + 1)
          omega

theorem sendWebhookFrom_attempts_pos (att : Nat → Bool) (n : Nat) (hn : 1 ≤ n) :
    ∀ attempt, 1 ≤ (sendWebhookFrom att attempt n).attemptsMade := by
  intro attempt
  obtain ⟨m, rfl⟩ : ∃ m, n = m + 1 := ⟨n - 1, by omega⟩
  rw [sendWebhookFrom]
  by_cases hs : att attempt
  · simp [hs]
  · rw [if_neg (by simp [hs])]
    by_cases hm : m = 0
    · simp [hm]
    · rw [if_neg hm]
      simp only []
      omega

theorem sendWebhookFrom_error_iff (att : Nat → Bool) (n : Nat) (hn : 1 ≤ n) :
    ∀ attempt, ((sendWebhookFrom att attempt n).result = .error () ↔
      ∀ k, k < n → att (attempt + k) = false) := by
  induction n with
  | zero => omega
  | succ m ih =>
      intro attempt
      rw [sendWebhookFrom]
      by_cases hs : att attempt
      · rw [if_pos hs]
        constructor
        · intro hres; exact absurd hres (by simp)
        · intro hall
          have := hall 0 (by omega)
          simp at this
          exact absurd hs (by simp [this])
      · rw [if_neg (by simp [hs])]
        by_cases hm : m = 0
        · rw [if_pos hm]
          constructor
          · intro _ k hk
            have : k = 0 := by omega
            subst this
            simpa using (Bool.eq_false_iff.mpr hs)
          · intro _; rfl
        · rw [if_neg hm]
          simp only []
          rw [ih (by omega) (attempt + 1)]
          constructor
          · intro hall k hk
            rcases Nat.eq_zero_or_pos k with rfl | hpos
            · simpa using (Bool.eq_false_iff.mpr hs)
            · have := hall (k - 1) (by omega)
              have heq : attempt + 1 + (k - 1) = attempt + k := by omega
              rw [heq] at this
              exact this
          · intro hall k hk
            have := hall (k + 1) (by omega)
            have heq : attempt + (k + 1) = attempt + 1 + k := by omega
            rw [heq] at this
            exact this

theorem sendWebhookFrom_error_spec (att : Nat → Bool) (n : Nat) :
    ∀ attempt, 1 ≤ attempt →
      (sendWebhookFrom att attempt (n + 1)).result = .error () →
      (sendWebhookFrom att attempt (n + 1)).attemptsMade = n + 1
      ∧ (sendWebhookFrom att attempt (n + 1)).waitsMs
        = (List.range n).map (fun i => 2 ^ (attempt - 1 + i) * 1000) := by
  induction n with
  | zero =>
      intro attempt _ hres
      rw [sendWebhookFrom] at hres ⊢
      by_cases hs : att attempt
      · rw [if_pos hs] at hres; exact absurd hres (by simp)
      · rw [if_neg (by simp [hs])] at hres ⊢
        simp
  | succ m ih =>
      intro attempt ha hres
      rw [sendWebhookFrom] at hres ⊢
      by_cases hs : att attempt
      · rw [if_pos hs] at hres; exact absurd hres (by simp)
      · rw [if_neg (by simp [hs]), if_neg (by omega)] at hres ⊢
        dsimp only at hres ⊢
        obtain ⟨hatt, hwaits⟩ := ih (attempt + 1) (by omega) hres
        refine ⟨by omega, ?_⟩
        rw [hwaits, List.range_succ_eq_map, List.map_cons, List.map_map]
        refine congrArg₂ List.cons ?_ ?_
        · norm_num
        · apply List.map_congr_left
          intro i _
          simp only [Function.comp]
          congr 2
          omega

/-- C9 counterexample.  With `retries: 0` configured (`retries ?? 3` keeps
an explicit 0, and neither the loader nor the inline-config path forbids
it), the dispatch loop makes **zero** attempts — not "at least 1" — and the
dispatch resolves successfully without any delivery, so `createApprovalRequest`
keeps the entry and reports success. -/
theorem C9_counterexample :
    effectiveRetries { url := "https://h.example/w", retries := some 0 } = 0
    ∧ sendWebhook (fun _ => false) 0 = ⟨0, [], .ok ()⟩
    ∧ (sendWebhook (fun _ => false) 0).attemptsMade = 0 :=
  ⟨rfl, rfl, rfl⟩

/-- C9 as amended.  For a configured retry count of at least 1, dispatch
makes between 1 and `retries` attempts; it fails iff every one of the
`retries` attempts fails (HTTP non-2xx, network error and per-attempt
timeout being indistinguishable failures); on failure all `retries` attempts
were made with exponential backoff `2^(attempt-1)` seconds between
consecutive attempts, and `createApprovalRequest` then removes the pending
registry entry — no waiter can find it — and fails with `WebhookFailed`. -/
theorem C9_retry_and_cleanup (attemptSucceeds : Nat → Bool) (retries : Int)
    (registry : List (String × PendingEntry)) (requestId : String) (toolCallJs : JSValue)
    (nowIso expiresIso : String) (h1 : 1 ≤ retries) :
    (1 ≤ (sendWebhook attemptSucceeds retries).attemptsMade
      ∧ (sendWebhook attemptSucceeds retries).attemptsMade ≤ retries.toNat)
    ∧ ((sendWebhook attemptSucceeds retries).result = .error () ↔
        ∀ k, k < retries.toNat → attemptSucceeds (1 + k) = false)
    ∧ ((sendWebhook attemptSucceeds retries).result = .error () →
        (sendWebhook attemptSucceeds retries).attemptsMade = retries.toNat
        ∧ (sendWebhook attemptSucceeds retries).waitsMs
          = (List.range (retries.toNat - 1)).map (fun i => 2 ^ i * 1000))
    ∧ ((sendWebhook attemptSucceeds retries).result = .error () →
        regGet (createApprovalRequest registry requestId toolCallJs nowIso expiresIso true
            ((sendWebhook attemptSucceeds retries).result)).1 requestId = none
        ∧ (createApprovalRequest registry requestId toolCallJs nowIso expiresIso true
            ((sendWebhook attemptSucceeds retries).result)).2
          = .error (.webhookFailed "Failed to send approval request webhook")) := by
  have hn : 1 ≤ retries.toNat := by omega
  obtain ⟨m, hm⟩ : ∃ m, retries.toNat = m + 1 := ⟨retries.toNat - 1, by omega⟩
  refine ⟨⟨?_, ?_⟩, ?_, ?_, ?_⟩
  · exact sendWebhookFrom_attempts_pos attemptSucceeds retries.toNat hn 1
  · exact sendWebhookFrom_attempts_le attemptSucceeds retries.toNat 1
  · exact sendWebhookFrom_error_iff attemptSucceeds retries.toNat hn 1
  · intro hres
    rw [sendWebhook, hm] at hres ⊢
    obtain ⟨ha, hw⟩ := sendWebhookFrom_error_spec attemptSucceeds m 1 (by omega) hres
    exact ⟨ha, by simpa using hw⟩
  · intro hres
    rw [createApprovalRequest.eq_def, hres]
    exact ⟨regGet_regDelete_self _ _, rfl⟩

/-- Witness for the amended C9: two failing attempts with `retries = 2`. -/
theorem C9_retry_and_cleanup_witness :
    (1 ≤ (sendWebhook (fun _ => false) 2).attemptsMade
      ∧ (sendWebhook (fun _ => false) 2).attemptsMade ≤ (2 : Int).toNat)
    ∧ ((sendWebhook (fun _ => false) 2).result = .error () ↔
        ∀ k, k < (2 : Int).toNat → (fun _ => false : Nat → Bool) (1 + k) = false)
    ∧ ((sendWebhook (fun _ => false) 2).result = .error () →
        (sendWebhook (fun _ => false) 2).attemptsMade = (2 : Int).toNat
        ∧ (sendWebhook (fun _ => false) 2).waitsMs
          = (List.range ((2 : Int).toNat - 1)).map (fun i => 2 ^ i * 1000))
    ∧ ((sendWebhook (fun _ => false) 2).result = .error () →
        regGet (createApprovalRequest [] "r2" (.obj []) "t0" "t1" true
            ((sendWebhook (fun _ => false) 2).result)).1 "r2" = none
        ∧ (createApprovalRequest [] "r2" (.obj []) "t0" "t1" true
            ((sendWebhook (fun _ => false) 2).result)).2
          = .error (.webhookFailed "Failed to send approval request webhook")) :=
  C9_retry_and_cleanup (fun _ => false) 2 [] "r2" (.obj []) "t0" "t1" (by decide)
